import Mathlib

/-!
Verification development for the tabata-timer-pro workout timer core.

The definitions below are shallow embeddings of the TypeScript source:
* `transitionPhase` embeds the phase-transition function of `useTimer`
  (src/hooks.ts, `transitionPhase`); the `none` result models the branch
  that returns `currentStatus` itself (the same object reference).
* `advanceLoopF` embeds the catch-up while loop of `advanceTimer`
  (src/hooks.ts); the loop is written with an explicit fuel parameter and
  we prove a concrete fuel bound always suffices.
* `legacyTick` embeds the inline per-second `setInterval` callback of the
  legacy `useTimer` hook (src/unnamed/part_007).
* `SonicMode.sonicModeReducer` embeds the listening-protection reducer
  (the module concatenated into src/components/WorkoutSetup.tsx).

Machine numbers: all durations and counters in the source are nonnegative
integers (the UI clamps inputs at `min="0"`/`min="1"` and the spec's data
model declares integer seconds ≥ 0), so they are modelled as `Nat`;
timestamps are modelled as `Int` (they can go negative after subtracting
`elapsedSeconds * 1000`).  JavaScript array indexing `rounds[i]` yields
`undefined` out of range and the source does not guard it, so `roundAt`
uses a default that theorems render unreachable via in-range hypotheses.
-/

namespace Tabata

inductive TimerPhase where
  | prepare
  | work
  | rest
  | set_rest
  | finished
deriving DecidableEq, Repr

structure Round where
  id : String
  exerciseName : String
  workTime : Nat
  restTime : Nat
deriving DecidableEq, Repr

structure Workout where
  id : String
  name : String
  sets : Nat
  setRestTime : Nat
  rounds : List Round
deriving DecidableEq, Repr

structure TimerStatus where
  phase : TimerPhase
  currentSet : Nat
  currentRoundIndex : Nat
  timeLeftInPhase : Nat
  totalPhaseTime : Nat
  workoutCompleted : Bool
deriving DecidableEq, Repr

structure TimerTransitionEvent where
  id : Nat
  phase : TimerPhase
  set : Nat
  roundIndex : Nat
  occurredAt : Int
deriving DecidableEq, Repr

def PREPARE_TIME : Nat := 5

/-- The status created by `useTimer`'s `useState` initializer (src/hooks.ts). -/
def initialStatus : TimerStatus :=
  { phase := .prepare
    currentSet := 1
    currentRoundIndex := 0
    timeLeftInPhase := PREPARE_TIME
    totalPhaseTime := PREPARE_TIME
    workoutCompleted := false }

def defaultRound : Round := { id := "", exerciseName := "", workTime := 0, restTime := 0 }

/-- JS indexing `workout.rounds[i]`.  Out of range the source would get
`undefined` (and crash on member access); theorems supply in-range
hypotheses so the default is never consulted. -/
def roundAt (w : Workout) (i : Nat) : Round := w.rounds.getD i defaultRound

/-- `transitionPhase` from src/hooks.ts (lines 125-223), for a non-null
workout.  `none` models the `case 'finished': default:` branch that
returns `currentStatus` itself (the same reference); every other branch
builds a fresh object, so callers' reference-identity check
`nextStatus === statusSnapshot` is exactly `= none` here. -/
def transitionPhase (w : Workout) (s : TimerStatus) : Option TimerStatus :=
  match s.phase with
  | .prepare =>
      let nextRound := roundAt w 0
      some { s with
        phase := .work
        currentSet := 1
        currentRoundIndex := 0
        timeLeftInPhase := nextRound.workTime
        totalPhaseTime := nextRound.workTime }
  | .work =>
      let round := roundAt w s.currentRoundIndex
      let isFinalExercise :=
        s.currentSet == w.sets && s.currentRoundIndex == w.rounds.length - 1
      if round.restTime ≤ 0 then
        if isFinalExercise then
          some { s with
            phase := .finished
            workoutCompleted := true
            timeLeftInPhase := 0
            totalPhaseTime := 0 }
        else
          some { s with
            phase := .set_rest
            timeLeftInPhase := w.setRestTime
            totalPhaseTime := w.setRestTime }
      else
        some { s with
          phase := .rest
          timeLeftInPhase := round.restTime
          totalPhaseTime := round.restTime }
  | .rest =>
      let isFinalExercise :=
        s.currentSet == w.sets && s.currentRoundIndex == w.rounds.length - 1
      if isFinalExercise then
        some { s with
          phase := .finished
          workoutCompleted := true
          timeLeftInPhase := 0
          totalPhaseTime := 0 }
      else
        some { s with
          phase := .set_rest
          timeLeftInPhase := w.setRestTime
          totalPhaseTime := w.setRestTime }
  | .set_rest =>
      let wrapped := s.currentRoundIndex + 1 ≥ w.rounds.length
      let nextRoundIndex := if wrapped then 0 else s.currentRoundIndex + 1
      let nextSet := if wrapped then s.currentSet + 1 else s.currentSet
      if nextSet > w.sets then
        some { s with
          phase := .finished
          workoutCompleted := true
          timeLeftInPhase := 0
          totalPhaseTime := 0 }
      else
        let nextRound := roundAt w nextRoundIndex
        some { s with
          phase := .work
          currentSet := nextSet
          currentRoundIndex := nextRoundIndex
          timeLeftInPhase := nextRound.workTime
          totalPhaseTime := nextRound.workTime }
  | .finished => none

/-- Total functional form of `transitionPhase` (identity on `finished`). -/
def transitionStep (w : Workout) (s : TimerStatus) : TimerStatus :=
  (transitionPhase w s).getD s

/-- The event pushed by `pushEvent` inside `advanceTimer` (src/hooks.ts lines 235-243). -/
def mkEvent (id : Nat) (s : TimerStatus) (occurredAt : Int) : TimerTransitionEvent :=
  { id := id
    phase := s.phase
    set := s.currentSet
    roundIndex := s.currentRoundIndex
    occurredAt := occurredAt }

/-- One loop iteration of `advanceTimer` (src/hooks.ts lines 245-277),
written with explicit fuel.  `none` means the fuel ran out before the
loop finished; `advanceTimer_terminates` shows a concrete bound always
suffices.  Arguments after the workout: current snapshot, `remaining`,
`timestampCursor`, and the next transition id. -/
def advanceLoopF : Nat → Workout → TimerStatus → Nat → Int → Nat →
    Option (TimerStatus × List TimerTransitionEvent)
  | 0, _, _, _, _, _ => none
  | fuel + 1, w, s, remaining, cursor, nid =>
      if remaining = 0 ∨ s.workoutCompleted then
        some (s, [])
      else if s.timeLeftInPhase = 0 then
        match transitionPhase w s with
        | none => some (s, [])
        | some s' =>
            (advanceLoopF fuel w s' remaining cursor (nid + 1)).map
              (fun r => (r.1, mkEvent nid s' cursor :: r.2))
      else if remaining < s.timeLeftInPhase then
        some ({ s with timeLeftInPhase := s.timeLeftInPhase - remaining }, [])
      else
        let cursor' := cursor + (s.timeLeftInPhase : Int) * 1000
        let remaining' := remaining - s.timeLeftInPhase
        let s0 := { s with timeLeftInPhase := 0 }
        match transitionPhase w s0 with
        | none => some (s0, [])
        | some s' =>
            (advanceLoopF fuel w s' remaining' cursor' (nid + 1)).map
              (fun r => (r.1, mkEvent nid s' cursor' :: r.2))

def phasePos : TimerPhase → Nat
  | .prepare => 0
  | .work => 1
  | .rest => 2
  | .set_rest => 3
  | .finished => 4

/-- Ranking function for the catch-up loop: strictly decreases along every
`transitionPhase` step, for arbitrary (even malformed) statuses. -/
def loopMeasure (w : Workout) (s : TimerStatus) : Nat :=
  match s.phase with
  | .finished => 0
  | .prepare => 3 * ((w.rounds.length + 1) * (w.sets + 2)) + 10
  | _ =>
      3 * ((w.rounds.length + 1) * (w.sets + 1 - s.currentSet)
            + (w.rounds.length - s.currentRoundIndex))
        + (4 - phasePos s.phase)

/-- Fuel that always suffices for `advanceLoopF` (proved in `advanceTimer_terminates`). -/
def fuelBound (w : Workout) (s : TimerStatus) (e : Nat) : Nat :=
  e + loopMeasure w s + 1

/-- A JavaScript `number` passed as `elapsedSeconds`: an integer or `NaN`. -/
inductive JsNumber where
  | num (n : Int)
  | nan
deriving DecidableEq, Repr

/-- `advanceTimer` from src/hooks.ts (lines 225-280) for a non-null workout,
with JS comparison semantics on `elapsedSeconds`: `NaN <= 0` is false, so
`NaN` passes the entry guard, but `NaN > 0` is also false, so the while
loop body never runs and the snapshot copy (value-equal to the input) is
returned with no events. -/
def advanceTimerJS (w : Workout) (s : TimerStatus) (e : JsNumber) (now : Int)
    (nid : Nat) : TimerStatus × List TimerTransitionEvent :=
  match e with
  | .nan => (s, [])
  | .num n =>
      if n ≤ 0 then (s, [])
      else
        (advanceLoopF (fuelBound w s n.toNat) w s n.toNat (now - n * 1000) nid).getD (s, [])

/-- `advanceTimer` restricted to nonnegative integer elapsed seconds (the
scheduler always passes `Math.floor(deltaMs / 1000) > 0`). -/
def advanceTimer (w : Workout) (s : TimerStatus) (e : Nat) (now : Int)
    (nid : Nat) : TimerStatus × List TimerTransitionEvent :=
  advanceTimerJS w s (.num e) now nid

/-- The inline `setInterval` callback of the legacy `useTimer` hook
(src/unnamed/part_007, lines 125-179): decrement while more than one
second remains, otherwise transition in place.  The `finished` case falls
through the `switch` to the common return with `nextPhase = 'work'`,
`nextTime = 0` (the surrounding effect never ticks a completed status). -/
def legacyTick (w : Workout) (s : TimerStatus) : TimerStatus :=
  if 1 < s.timeLeftInPhase then
    { s with timeLeftInPhase := s.timeLeftInPhase - 1 }
  else
    match s.phase with
    | .prepare =>
        { s with
          phase := .work
          timeLeftInPhase := (roundAt w 0).workTime
          totalPhaseTime := (roundAt w 0).workTime }
    | .work =>
        if s.currentRoundIndex = w.rounds.length - 1 then
          if s.currentSet = w.sets then
            { s with phase := .finished, workoutCompleted := true, timeLeftInPhase := 0 }
          else
            { s with
              phase := .set_rest
              timeLeftInPhase := w.setRestTime
              totalPhaseTime := w.setRestTime }
        else
          { s with
            phase := .rest
            timeLeftInPhase := (roundAt w s.currentRoundIndex).restTime
            totalPhaseTime := (roundAt w s.currentRoundIndex).restTime }
    | .rest =>
        { s with
          phase := .work
          currentRoundIndex := s.currentRoundIndex + 1
          timeLeftInPhase := (roundAt w (s.currentRoundIndex + 1)).workTime
          totalPhaseTime := (roundAt w (s.currentRoundIndex + 1)).workTime }
    | .set_rest =>
        { s with
          phase := .work
          currentSet := s.currentSet + 1
          currentRoundIndex := 0
          timeLeftInPhase := (roundAt w 0).workTime
          totalPhaseTime := (roundAt w 0).workTime }
    | .finished =>
        { s with phase := .work, timeLeftInPhase := 0, totalPhaseTime := 0 }

/-! ### Reference notions for the catch-up guarantee

`transitionPhase` never reads `timeLeftInPhase`, so the sequence of phases a
run enters is the orbit of `transitionStep`.  `entryTime w s j` is the number
of seconds after the start of an elapsed span at which the `j`-th boundary
lies (the remaining time of the current phase plus the full durations of the
next `j - 1` phases).  `crossedBoundary w s e j` says an elapsed span of `e`
seconds starting at status `s` crosses the `j`-th phase boundary: the run is
still live up to that boundary and the boundary lies inside the span (a
boundary exactly at the end of the span counts only when reached by consuming
a positive-length phase; trailing zero-length phases at the very end of the
span are entered by the next call). -/

/-- The `j`-th status of the transition orbit starting at `s`. -/
def chainStatus (w : Workout) (s : TimerStatus) : Nat → TimerStatus
  | 0 => s
  | j + 1 => chainStatus w (transitionStep w s) j

/-- Seconds from the start of the span to the `j`-th phase boundary. -/
def entryTime (w : Workout) (s : TimerStatus) : Nat → Nat
  | 0 => 0
  | j + 1 => s.timeLeftInPhase + entryTime w (transitionStep w s) j

/-- The run is live (not `finished`, not completed) strictly before index `j`. -/
def chainOk (w : Workout) (s : TimerStatus) (j : Nat) : Prop :=
  ∀ i < j, (chainStatus w s i).phase ≠ .finished ∧ (chainStatus w s i).workoutCompleted = false

instance (w : Workout) (s : TimerStatus) (j : Nat) : Decidable (chainOk w s j) := by
  unfold chainOk; infer_instance

/-- An elapsed span of `e` seconds from `s` crosses the `j`-th boundary (`j ≥ 1`). -/
def crossedBoundary (w : Workout) (s : TimerStatus) (e j : Nat) : Prop :=
  chainOk w s j ∧
    (entryTime w s j < e ∨
      (0 < (chainStatus w s (j - 1)).timeLeftInPhase ∧ entryTime w s j ≤ e))

instance (w : Workout) (s : TimerStatus) (e j : Nat) :
    Decidable (crossedBoundary w s e j) := by
  unfold crossedBoundary; infer_instance

/-- The final status of a catch-up call; it depends on neither `now` nor the
next transition id (proved in `advanceTimer_fst`). -/
def statusAdv (w : Workout) (s : TimerStatus) (e : Nat) : TimerStatus :=
  (advanceTimer w s e 0 0).1

end Tabata

namespace SonicMode

/-! Embedding of the listening-protection ("Sonic Mode") engine: the reducer
module concatenated into src/components/WorkoutSetup.tsx (lines 250-333),
together with the unit-tick driving rule of src/components/TimerDisplay.tsx
(`TICK` once per second; dispatch `TRANSITION` as soon as `timeLeft ≤ 0`). -/

inductive SonicModePhase where
  | inactive
  | listen
  | earRest
  | extendedBreak
deriving DecidableEq, Repr

structure SonicModeState where
  isActive : Bool
  phase : SonicModePhase
  timeLeft : Nat
  cycleCount : Nat
deriving DecidableEq, Repr

/-- `AppSettings` from src/types.ts; only `sonicModeCycles` feeds the reducer. -/
structure AppSettings where
  soundOn : Bool
  notificationsOn : Bool
  darkMode : Bool
  sonicModeOn : Bool
  sonicModeCycles : Nat
deriving DecidableEq, Repr

inductive SonicModeAction where
  | START (settings : AppSettings)
  | STOP
  | TICK
  | TRANSITION (settings : AppSettings)

def initialSonicModeState : SonicModeState :=
  { isActive := false, phase := .inactive, timeLeft := 0, cycleCount := 0 }

def LISTEN_DURATION : Nat := 60 * 60
def EAR_REST_DURATION : Nat := 15 * 60
def EXTENDED_BREAK_DURATION : Nat := 60 * 60

/-- `sonicModeReducer` from the module concatenated into
src/components/WorkoutSetup.tsx (lines 278-333). -/
def sonicModeReducer (state : SonicModeState) (action : SonicModeAction) : SonicModeState :=
  match action with
  | .START _ =>
      { isActive := true, phase := .listen, timeLeft := LISTEN_DURATION, cycleCount := 1 }
  | .STOP => initialSonicModeState
  | .TICK =>
      if !state.isActive || state.timeLeft == 0 then state
      else { state with timeLeft := state.timeLeft - 1 }
  | .TRANSITION settings =>
      if !state.isActive then state
      else
        match state.phase with
        | .listen =>
            if state.cycleCount ≥ settings.sonicModeCycles then
              { state with phase := .extendedBreak, timeLeft := EXTENDED_BREAK_DURATION }
            else
              { state with phase := .earRest, timeLeft := EAR_REST_DURATION }
        | .earRest =>
            { state with
              phase := .listen
              timeLeft := LISTEN_DURATION
              cycleCount := state.cycleCount + 1 }
        | .extendedBreak =>
            { state with phase := .listen, timeLeft := LISTEN_DURATION, cycleCount := 1 }
        | _ => state

/-- One elapsed second of the unit-tick engine, with a transition counter:
dispatch `TICK`, then (the effect at src/components/TimerDisplay.tsx lines
153-157) dispatch `TRANSITION` as soon as `timeLeft` has reached zero. -/
def sonicGapStep (settings : AppSettings) :
    SonicModeState × Nat → SonicModeState × Nat :=
  fun p =>
    let t := sonicModeReducer p.1 .TICK
    if t.isActive && t.timeLeft == 0 then
      (sonicModeReducer t (.TRANSITION settings), p.2 + 1)
    else (t, p.2)

end SonicMode

namespace Tabata

/-! ### Basic facts about `transitionPhase` -/

theorem transitionPhase_timeLeft_irrel (w : Workout) (s : TimerStatus) (x : Nat) :
    transitionPhase w { s with timeLeftInPhase := x } = transitionPhase w s := by
  obtain ⟨ph, cs, ci, tl, tt, wc⟩ := s
  cases ph <;> rfl

theorem transitionPhase_none_iff (w : Workout) (s : TimerStatus) :
    transitionPhase w s = none ↔ s.phase = .finished := by
  obtain ⟨ph, cs, ci, tl, tt, wc⟩ := s
  cases ph <;> simp only [transitionPhase] <;> (repeat' split) <;> simp

theorem transitionPhase_some_not_finished {w : Workout} {s s' : TimerStatus}
    (h : transitionPhase w s = some s') : s.phase ≠ .finished := by
  intro hf
  rw [(transitionPhase_none_iff w s).2 hf] at h
  exact Option.noConfusion h

/-- The loop ranking strictly decreases along every real transition, for
arbitrary (even malformed) statuses. -/
theorem loopMeasure_decreases (w : Workout) {s s' : TimerStatus}
    (h : transitionPhase w s = some s') : loopMeasure w s' < loopMeasure w s := by
  obtain ⟨ph, cs, ci, tl, tt, wc⟩ := s
  cases ph
  case prepare =>
    simp only [transitionPhase, Option.some.injEq] at h
    subst h
    simp only [loopMeasure, phasePos]
    have e1 : (w.rounds.length + 1) * (w.sets + 2)
        = (w.rounds.length + 1) * w.sets + (w.rounds.length + 1) + (w.rounds.length + 1) := by
      ring
    have e2 : w.sets + 1 - 1 = w.sets := by omega
    rw [e1, e2]
    generalize (w.rounds.length + 1) * w.sets = P
    omega
  case work =>
    simp only [transitionPhase] at h
    split at h
    · split at h <;>
        · simp only [Option.some.injEq] at h
          subst h
          simp only [loopMeasure, phasePos]
          generalize (w.rounds.length + 1) * (w.sets + 1 - cs) + (w.rounds.length - ci) = A
          omega
    · simp only [Option.some.injEq] at h
      subst h
      simp only [loopMeasure, phasePos]
      generalize (w.rounds.length + 1) * (w.sets + 1 - cs) + (w.rounds.length - ci) = A
      omega
  case rest =>
    simp only [transitionPhase] at h
    split at h <;>
      · simp only [Option.some.injEq] at h
        subst h
        simp only [loopMeasure, phasePos]
        generalize (w.rounds.length + 1) * (w.sets + 1 - cs) + (w.rounds.length - ci) = A
        omega
  case set_rest =>
    by_cases hwrap : ci + 1 ≥ w.rounds.length
    · simp only [transitionPhase, if_pos hwrap] at h
      split at h
      · -- wrapped past the last set: finished
        simp only [Option.some.injEq] at h
        subst h
        simp only [loopMeasure, phasePos]
        generalize (w.rounds.length + 1) * (w.sets + 1 - cs) + (w.rounds.length - ci) = A
        omega
      · -- wrapped into the next set
        rename_i hsets
        simp only [Option.some.injEq] at h
        subst h
        simp only [loopMeasure, phasePos]
        have hcs : cs + 1 ≤ w.sets := by omega
        have e1 : w.sets + 1 - cs = (w.sets - cs) + 1 := by omega
        have e2 : w.sets + 1 - (cs + 1) = w.sets - cs := by omega
        rw [e1, e2, Nat.mul_succ]
        generalize (w.rounds.length + 1) * (w.sets - cs) = Q
        omega
    · simp only [transitionPhase, if_neg hwrap] at h
      split at h
      · simp only [Option.some.injEq] at h
        subst h
        simp only [loopMeasure, phasePos]
        generalize (w.rounds.length + 1) * (w.sets + 1 - cs) + (w.rounds.length - ci) = A
        omega
      · simp only [Option.some.injEq] at h
        subst h
        simp only [loopMeasure, phasePos]
        have hci : ci + 1 < w.rounds.length := by omega
        generalize (w.rounds.length + 1) * (w.sets + 1 - cs) = P
        omega
  case finished => exact Option.noConfusion h

/-! ### Fuel lemmas for the catch-up loop -/

/-- One-step unfolding of the loop with a generic fuel argument (so rewriting
does not cascade into the recursive occurrence). -/
theorem advanceLoopF_succ (fuel : Nat) (w : Workout) (s : TimerStatus) (e : Nat)
    (c : Int) (n : Nat) :
    advanceLoopF (fuel + 1) w s e c n =
      if e = 0 ∨ s.workoutCompleted = true then some (s, [])
      else if s.timeLeftInPhase = 0 then
        match transitionPhase w s with
        | none => some (s, [])
        | some s' =>
            (advanceLoopF fuel w s' e c (n + 1)).map
              (fun r => (r.1, mkEvent n s' c :: r.2))
      else if e < s.timeLeftInPhase then
        some ({ s with timeLeftInPhase := s.timeLeftInPhase - e }, [])
      else
        match transitionPhase w { s with timeLeftInPhase := 0 } with
        | none => some ({ s with timeLeftInPhase := 0 }, [])
        | some s' =>
            (advanceLoopF fuel w s' (e - s.timeLeftInPhase)
                (c + (s.timeLeftInPhase : Int) * 1000) (n + 1)).map
              (fun r => (r.1, mkEvent n s' (c + (s.timeLeftInPhase : Int) * 1000) :: r.2)) := rfl

theorem advanceLoopF_mono :
    ∀ (fuel : Nat) (w : Workout) (s : TimerStatus) (e : Nat) (c : Int) (n : Nat)
      (r : TimerStatus × List TimerTransitionEvent),
      advanceLoopF fuel w s e c n = some r → advanceLoopF (fuel + 1) w s e c n = some r := by
  intro fuel
  induction fuel with
  | zero =>
    intro w s e c n r h
    simp [advanceLoopF] at h
  | succ fuel ih =>
    intro w s e c n r h
    rw [advanceLoopF_succ]
    by_cases h1 : e = 0 ∨ s.workoutCompleted = true
    · simpa [advanceLoopF, h1] using h
    · by_cases h2 : s.timeLeftInPhase = 0
      · cases htp : transitionPhase w s with
        | none => simpa [advanceLoopF, h1, h2, htp] using h
        | some s' =>
          simp only [advanceLoopF, if_neg h1, if_pos h2, htp] at h
          simp only [if_neg h1, if_pos h2, htp]
          obtain ⟨r', hr', hfr⟩ := Option.map_eq_some'.1 h
          rw [ih _ _ _ _ _ _ hr']
          simpa using hfr
      · by_cases h3 : e < s.timeLeftInPhase
        · simpa [advanceLoopF, h1, h2, h3] using h
        · cases htp : transitionPhase w { s with timeLeftInPhase := 0 } with
          | none => simpa [advanceLoopF, h1, h2, h3, htp] using h
          | some s' =>
            simp only [advanceLoopF, if_neg h1, if_neg h2, if_neg h3, htp] at h
            simp only [if_neg h1, if_neg h2, if_neg h3, htp]
            obtain ⟨r', hr', hfr⟩ := Option.map_eq_some'.1 h
            rw [ih _ _ _ _ _ _ hr']
            simpa using hfr

theorem advanceLoopF_le {fuel fuel' : Nat} (hle : fuel ≤ fuel')
    {w : Workout} {s : TimerStatus} {e : Nat} {c : Int} {n : Nat}
    {r : TimerStatus × List TimerTransitionEvent}
    (h : advanceLoopF fuel w s e c n = some r) :
    advanceLoopF fuel' w s e c n = some r := by
  induction hle with
  | refl => exact h
  | step _ ih => exact advanceLoopF_mono _ w s e c n r ih

theorem advanceLoopF_isSome :
    ∀ (fuel : Nat) (w : Workout) (s : TimerStatus) (e : Nat) (c : Int) (n : Nat),
      e + loopMeasure w s < fuel → (advanceLoopF fuel w s e c n).isSome = true := by
  intro fuel
  induction fuel with
  | zero => intro w s e c n h; omega
  | succ fuel ih =>
    intro w s e c n h
    by_cases h1 : e = 0 ∨ s.workoutCompleted = true
    · simp [advanceLoopF, h1]
    · by_cases h2 : s.timeLeftInPhase = 0
      · cases htp : transitionPhase w s with
        | none => simp [advanceLoopF, h1, h2, htp]
        | some s' =>
          have hm := loopMeasure_decreases w htp
          have hs := ih w s' e c (n + 1) (by omega)
          obtain ⟨r, hr⟩ := Option.isSome_iff_exists.1 hs
          simp [advanceLoopF, h1, h2, htp, hr]
      · by_cases h3 : e < s.timeLeftInPhase
        · simp [advanceLoopF, h1, h2, h3]
        · cases htp : transitionPhase w { s with timeLeftInPhase := 0 } with
          | none => simp [advanceLoopF, h1, h2, h3, htp]
          | some s' =>
            have hm : loopMeasure w s' < loopMeasure w s := by
              have := loopMeasure_decreases w htp
              have heq : loopMeasure w { s with timeLeftInPhase := 0 } = loopMeasure w s := by
                obtain ⟨ph, cs, ci, tl, tt, wc⟩ := s
                cases ph <;> rfl
              omega
            have hs := ih w s' (e - s.timeLeftInPhase) (c + (s.timeLeftInPhase : Int) * 1000)
              (n + 1) (by omega)
            obtain ⟨r, hr⟩ := Option.isSome_iff_exists.1 hs
            simp [advanceLoopF, h1, h2, h3, htp, hr]

theorem advanceLoopF_congr {fuel fuel' : Nat} {w : Workout} {s : TimerStatus}
    {e : Nat} {c : Int} {n : Nat}
    (h1 : e + loopMeasure w s < fuel) (h2 : e + loopMeasure w s < fuel') :
    advanceLoopF fuel w s e c n = advanceLoopF fuel' w s e c n := by
  rcases le_total fuel fuel' with hle | hle
  · obtain ⟨r, hr⟩ := Option.isSome_iff_exists.1 (advanceLoopF_isSome fuel w s e c n h1)
    rw [hr, advanceLoopF_le hle hr]
  · obtain ⟨r, hr⟩ := Option.isSome_iff_exists.1 (advanceLoopF_isSome fuel' w s e c n h2)
    rw [hr, advanceLoopF_le hle hr]

/-- The final status does not depend on the timestamp cursor or the next
transition id. -/
theorem advanceLoopF_fst_indep :
    ∀ (fuel : Nat) (w : Workout) (s : TimerStatus) (e : Nat)
      (c₁ : Int) (n₁ : Nat) (c₂ : Int) (n₂ : Nat),
      (advanceLoopF fuel w s e c₁ n₁).map Prod.fst
        = (advanceLoopF fuel w s e c₂ n₂).map Prod.fst := by
  intro fuel
  induction fuel with
  | zero => intro w s e c₁ n₁ c₂ n₂; rfl
  | succ fuel ih =>
    intro w s e c₁ n₁ c₂ n₂
    by_cases h1 : e = 0 ∨ s.workoutCompleted = true
    · simp [advanceLoopF, h1]
    · by_cases h2 : s.timeLeftInPhase = 0
      · cases htp : transitionPhase w s with
        | none => simp [advanceLoopF, h1, h2, htp]
        | some s' =>
          simp only [advanceLoopF, if_neg h1, if_pos h2, htp, Option.map_map]
          have hcomp : (Prod.fst ∘ fun r : TimerStatus × List TimerTransitionEvent =>
              (r.1, mkEvent n₁ s' c₁ :: r.2)) = Prod.fst := rfl
          have hcomp2 : (Prod.fst ∘ fun r : TimerStatus × List TimerTransitionEvent =>
              (r.1, mkEvent n₂ s' c₂ :: r.2)) = Prod.fst := rfl
          rw [hcomp, hcomp2]
          exact ih w s' e c₁ (n₁ + 1) c₂ (n₂ + 1)
      · by_cases h3 : e < s.timeLeftInPhase
        · simp [advanceLoopF, h1, h2, h3]
        · cases htp : transitionPhase w { s with timeLeftInPhase := 0 } with
          | none => simp [advanceLoopF, h1, h2, h3, htp]
          | some s' =>
            simp only [advanceLoopF, if_neg h1, if_neg h2, if_neg h3, htp, Option.map_map]
            have hcomp : (Prod.fst ∘ fun r : TimerStatus × List TimerTransitionEvent =>
                (r.1, mkEvent n₁ s' (c₁ + (s.timeLeftInPhase : Int) * 1000) :: r.2)) = Prod.fst := rfl
            have hcomp2 : (Prod.fst ∘ fun r : TimerStatus × List TimerTransitionEvent =>
                (r.1, mkEvent n₂ s' (c₂ + (s.timeLeftInPhase : Int) * 1000) :: r.2)) = Prod.fst := rfl
            rw [hcomp, hcomp2]
            exact ih w s' (e - s.timeLeftInPhase) _ (n₁ + 1) _ (n₂ + 1)

/-! ### The final status of a catch-up call -/

theorem advanceTimer_fst_any (w : Workout) (s : TimerStatus) (e : Nat) (now : Int)
    (nid : Nat) (c : Int) (n : Nat) (fuel : Nat) (hf : e + loopMeasure w s < fuel) :
    (advanceTimer w s e now nid).1 = ((advanceLoopF fuel w s e c n).getD (s, [])).1 := by
  simp only [advanceTimer, advanceTimerJS]
  by_cases he : e = 0
  · subst he
    obtain ⟨fuel', rfl⟩ : ∃ fuel', fuel = fuel' + 1 := ⟨fuel - 1, by omega⟩
    simp [advanceLoopF_succ]
  · have hng : ¬((e : Int) ≤ 0) := by
      simp only [not_le]
      exact_mod_cast Nat.pos_of_ne_zero he
    rw [if_neg hng]
    have ht : ((e : Int)).toNat = e := Int.toNat_natCast e
    rw [ht]
    have hs1 : e + loopMeasure w s < fuelBound w s e := by unfold fuelBound; omega
    have hA : advanceLoopF (fuelBound w s e) w s e (now - (e : Int) * 1000) nid
        = advanceLoopF fuel w s e (now - (e : Int) * 1000) nid :=
      advanceLoopF_congr hs1 hf
    rw [hA]
    obtain ⟨r1, hr1⟩ := Option.isSome_iff_exists.1
      (advanceLoopF_isSome fuel w s e (now - (e : Int) * 1000) nid hf)
    obtain ⟨r2, hr2⟩ := Option.isSome_iff_exists.1
      (advanceLoopF_isSome fuel w s e c n hf)
    have hfst := advanceLoopF_fst_indep fuel w s e (now - (e : Int) * 1000) nid c n
    rw [hr1, hr2] at hfst
    simp only [Option.map_some'] at hfst
    rw [hr1, hr2]
    simpa using hfst

theorem statusAdv_eq (w : Workout) (s : TimerStatus) (e : Nat) (c : Int) (n : Nat)
    (fuel : Nat) (hf : e + loopMeasure w s < fuel) :
    statusAdv w s e = ((advanceLoopF fuel w s e c n).getD (s, [])).1 :=
  advanceTimer_fst_any w s e 0 0 c n fuel hf

theorem advanceTimer_fst (w : Workout) (s : TimerStatus) (e : Nat) (now : Int) (nid : Nat) :
    (advanceTimer w s e now nid).1 = statusAdv w s e := by
  have hf : e + loopMeasure w s < fuelBound w s e := by unfold fuelBound; omega
  rw [advanceTimer_fst_any w s e now nid 0 0 (fuelBound w s e) hf,
    statusAdv_eq w s e 0 0 (fuelBound w s e) hf]

/-! ### Unfolding equations for `statusAdv` -/

theorem statusAdv_zero (w : Workout) (s : TimerStatus) : statusAdv w s 0 = s := by
  rw [statusAdv_eq w s 0 0 0 (0 + loopMeasure w s + 1) (by omega)]
  simp [advanceLoopF_succ]

theorem statusAdv_completed (w : Workout) (s : TimerStatus)
    (hc : s.workoutCompleted = true) (e : Nat) : statusAdv w s e = s := by
  rw [statusAdv_eq w s e 0 0 (e + loopMeasure w s + 1) (by omega)]
  simp [advanceLoopF_succ, hc]

/-- A status already in the terminal phase with an exhausted countdown is left
unchanged for any elapsed time (the "no progress" break). -/
theorem statusAdv_finished (w : Workout) (s : TimerStatus)
    (hfin : s.phase = .finished) (htl : s.timeLeftInPhase = 0) (e : Nat) :
    statusAdv w s e = s := by
  by_cases hc : s.workoutCompleted = true
  · exact statusAdv_completed w s hc e
  · by_cases he : e = 0
    · subst he; exact statusAdv_zero w s
    · have hc' : s.workoutCompleted = false := by
        cases hcc : s.workoutCompleted
        · rfl
        · exact absurd hcc hc
      rw [statusAdv_eq w s e 0 0 (e + loopMeasure w s + 1) (by omega)]
      rw [advanceLoopF_succ, if_neg (by simp [hc', he]), if_pos htl,
        (transitionPhase_none_iff w s).2 hfin]
      rfl

theorem statusAdv_transition_zero (w : Workout) (s s' : TimerStatus)
    (hc : s.workoutCompleted = false) (htl : s.timeLeftInPhase = 0)
    (htp : transitionPhase w s = some s') (e : Nat) (he : 0 < e) :
    statusAdv w s e = statusAdv w s' e := by
  have hm := loopMeasure_decreases w htp
  rw [statusAdv_eq w s e 0 0 (e + loopMeasure w s + 1) (by omega)]
  rw [advanceLoopF_succ, if_neg (by simp [hc]; omega), if_pos htl, htp]
  rw [statusAdv_eq w s' e 0 1 (e + loopMeasure w s) (by omega)]
  obtain ⟨r, hr⟩ := Option.isSome_iff_exists.1
    (advanceLoopF_isSome (e + loopMeasure w s) w s' e 0 1 (by omega))
  simp [hr]

theorem statusAdv_small (w : Workout) (s : TimerStatus) (e : Nat)
    (hc : s.workoutCompleted = false) (he : 0 < e) (hlt : e < s.timeLeftInPhase) :
    statusAdv w s e = { s with timeLeftInPhase := s.timeLeftInPhase - e } := by
  rw [statusAdv_eq w s e 0 0 (e + loopMeasure w s + 1) (by omega)]
  rw [advanceLoopF_succ, if_neg (by simp [hc]; omega),
    if_neg (by omega : ¬s.timeLeftInPhase = 0), if_pos hlt]
  rfl

/-- Consuming the whole phase but finding no valid transition (a malformed
`finished` status with positive countdown) zeroes the countdown and stops. -/
theorem statusAdv_consume_finished (w : Workout) (s : TimerStatus) (e : Nat)
    (hc : s.workoutCompleted = false) (htl : 0 < s.timeLeftInPhase)
    (hle : s.timeLeftInPhase ≤ e) (hfin : s.phase = .finished) :
    statusAdv w s e = { s with timeLeftInPhase := 0 } := by
  rw [statusAdv_eq w s e 0 0 (e + loopMeasure w s + 1) (by omega)]
  have htp : transitionPhase w { s with timeLeftInPhase := 0 } = none := by
    rw [transitionPhase_timeLeft_irrel]
    exact (transitionPhase_none_iff w s).2 hfin
  rw [advanceLoopF_succ, if_neg (by simp [hc]; omega),
    if_neg (by omega : ¬s.timeLeftInPhase = 0), if_neg (by omega : ¬e < s.timeLeftInPhase), htp]
  rfl

theorem statusAdv_consume (w : Workout) (s s' : TimerStatus) (e : Nat)
    (hc : s.workoutCompleted = false) (htl : 0 < s.timeLeftInPhase)
    (hle : s.timeLeftInPhase ≤ e) (htp : transitionPhase w s = some s') :
    statusAdv w s e = statusAdv w s' (e - s.timeLeftInPhase) := by
  have hm := loopMeasure_decreases w htp
  rw [statusAdv_eq w s e 0 0 (e + loopMeasure w s + 1) (by omega)]
  have htp0 : transitionPhase w { s with timeLeftInPhase := 0 } = some s' := by
    rw [transitionPhase_timeLeft_irrel]; exact htp
  rw [advanceLoopF_succ, if_neg (by simp [hc]; omega),
    if_neg (by omega : ¬s.timeLeftInPhase = 0), if_neg (by omega : ¬e < s.timeLeftInPhase), htp0]
  rw [statusAdv_eq w s' (e - s.timeLeftInPhase) ((s.timeLeftInPhase : Int) * 1000) 1
    (e + loopMeasure w s) (by omega)]
  obtain ⟨r, hr⟩ := Option.isSome_iff_exists.1
    (advanceLoopF_isSome (e + loopMeasure w s) w s' (e - s.timeLeftInPhase)
      ((s.timeLeftInPhase : Int) * 1000) 1 (by omega))
  simp [hr]

/-! ### Catch-up advancement is split-invariant -/

theorem statusAdv_split (w : Workout) (s : TimerStatus) (a b : Nat) :
    statusAdv w s (a + b) = statusAdv w (statusAdv w s a) b := by
  suffices h : ∀ (n : Nat) (s : TimerStatus) (a b : Nat), a + loopMeasure w s ≤ n →
      statusAdv w s (a + b) = statusAdv w (statusAdv w s a) b from
    h (a + loopMeasure w s) s a b le_rfl
  intro n
  induction n with
  | zero =>
    intro s a b h
    have ha : a = 0 := by omega
    subst ha
    rw [statusAdv_zero, Nat.zero_add]
  | succ n ih =>
    intro s a b h
    by_cases ha : a = 0
    · subst ha
      rw [statusAdv_zero, Nat.zero_add]
    · cases hcc : s.workoutCompleted with
      | true =>
        rw [statusAdv_completed w s hcc, statusAdv_completed w s hcc,
          statusAdv_completed w s hcc]
      | false =>
        by_cases htl : s.timeLeftInPhase = 0
        · cases htp : transitionPhase w s with
          | none =>
            have hfin := (transitionPhase_none_iff w s).1 htp
            rw [statusAdv_finished w s hfin htl, statusAdv_finished w s hfin htl,
              statusAdv_finished w s hfin htl]
          | some s' =>
            have hm := loopMeasure_decreases w htp
            rw [statusAdv_transition_zero w s s' hcc htl htp (a + b) (by omega),
              statusAdv_transition_zero w s s' hcc htl htp a (by omega)]
            exact ih s' a b (by omega)
        · have htl' : 0 < s.timeLeftInPhase := by omega
          by_cases hsmall : a < s.timeLeftInPhase
          · by_cases hsmall2 : a + b < s.timeLeftInPhase
            · rw [statusAdv_small w s (a + b) hcc (by omega) hsmall2,
                statusAdv_small w s a hcc (by omega) hsmall]
              by_cases hb : b = 0
              · subst hb
                rw [statusAdv_zero]
                show ({ s with timeLeftInPhase := s.timeLeftInPhase - (a + 0) } : TimerStatus)
                  = { s with timeLeftInPhase := s.timeLeftInPhase - a }
                norm_num
              · rw [statusAdv_small w { s with timeLeftInPhase := s.timeLeftInPhase - a } b
                  hcc (by omega) (by show b < s.timeLeftInPhase - a; omega)]
                show ({ s with timeLeftInPhase := s.timeLeftInPhase - (a + b) } : TimerStatus)
                  = { s with timeLeftInPhase := s.timeLeftInPhase - a - b }
                have harg : s.timeLeftInPhase - (a + b) = s.timeLeftInPhase - a - b := by omega
                rw [harg]
            · have hle2 : s.timeLeftInPhase ≤ a + b := by omega
              cases htp : transitionPhase w s with
              | none =>
                have hfin := (transitionPhase_none_iff w s).1 htp
                rw [statusAdv_consume_finished w s (a + b) hcc htl' hle2 hfin,
                  statusAdv_small w s a hcc (by omega) hsmall,
                  statusAdv_consume_finished w { s with timeLeftInPhase := s.timeLeftInPhase - a }
                    b hcc (by show 0 < s.timeLeftInPhase - a; omega)
                    (by show s.timeLeftInPhase - a ≤ b; omega) hfin]
              | some s' =>
                rw [statusAdv_consume w s s' (a + b) hcc htl' hle2 htp,
                  statusAdv_small w s a hcc (by omega) hsmall]
                have htp2 : transitionPhase w { s with timeLeftInPhase := s.timeLeftInPhase - a }
                    = some s' := by
                  rw [transitionPhase_timeLeft_irrel]; exact htp
                rw [statusAdv_consume w { s with timeLeftInPhase := s.timeLeftInPhase - a } s' b
                  hcc (by show 0 < s.timeLeftInPhase - a; omega)
                  (by show s.timeLeftInPhase - a ≤ b; omega) htp2]
                show statusAdv w s' (a + b - s.timeLeftInPhase)
                  = statusAdv w s' (b - (s.timeLeftInPhase - a))
                have harg : a + b - s.timeLeftInPhase = b - (s.timeLeftInPhase - a) := by omega
                rw [harg]
          · have hle1 : s.timeLeftInPhase ≤ a := by omega
            cases htp : transitionPhase w s with
            | none =>
              have hfin := (transitionPhase_none_iff w s).1 htp
              rw [statusAdv_consume_finished w s (a + b) hcc htl' (by omega) hfin,
                statusAdv_consume_finished w s a hcc htl' hle1 hfin,
                statusAdv_finished w { s with timeLeftInPhase := 0 } hfin rfl b]
            | some s' =>
              have hm := loopMeasure_decreases w htp
              rw [statusAdv_consume w s s' (a + b) hcc htl' (by omega) htp,
                statusAdv_consume w s s' a hcc htl' hle1 htp]
              have harg : a + b - s.timeLeftInPhase = (a - s.timeLeftInPhase) + b := by omega
              rw [harg]
              exact ih s' (a - s.timeLeftInPhase) b (by omega)

/-! ### The transition orbit and boundary bookkeeping -/

theorem chainStatus_succ (w : Workout) (s : TimerStatus) (j : Nat) :
    chainStatus w s (j + 1) = chainStatus w (transitionStep w s) j := rfl

theorem entryTime_succ (w : Workout) (s : TimerStatus) (j : Nat) :
    entryTime w s (j + 1) = s.timeLeftInPhase + entryTime w (transitionStep w s) j := rfl

theorem entryTime_succ_back (w : Workout) :
    ∀ (j : Nat) (s : TimerStatus),
      entryTime w s (j + 1) = entryTime w s j + (chainStatus w s j).timeLeftInPhase := by
  intro j
  induction j with
  | zero => intro s; simp [entryTime, chainStatus]
  | succ j ih =>
    intro s
    have h1 : entryTime w s (j + 1 + 1)
        = s.timeLeftInPhase + entryTime w (transitionStep w s) (j + 1) := rfl
    have h2 : entryTime w s (j + 1)
        = s.timeLeftInPhase + entryTime w (transitionStep w s) j := rfl
    have h3 : chainStatus w s (j + 1) = chainStatus w (transitionStep w s) j := rfl
    rw [h1, ih (transitionStep w s), h2, h3]
    omega

theorem entryTime_le_succ (w : Workout) (s : TimerStatus) (j : Nat) :
    entryTime w s j ≤ entryTime w s (j + 1) := by
  rw [entryTime_succ_back]; omega

theorem entryTime_mono (w : Workout) (s : TimerStatus) {i j : Nat} (h : i ≤ j) :
    entryTime w s i ≤ entryTime w s j := by
  induction h with
  | refl => exact le_rfl
  | step _ ih => exact ih.trans (entryTime_le_succ w s _)

theorem duration_le_entryTime (w : Workout) (s : TimerStatus) {i j : Nat} (h : i < j) :
    (chainStatus w s i).timeLeftInPhase ≤ entryTime w s j := by
  have h1 : entryTime w s (i + 1) ≤ entryTime w s j := entryTime_mono w s h
  rw [entryTime_succ_back] at h1
  omega

theorem chainOk_succ_iff (w : Workout) (s : TimerStatus) (j : Nat) :
    chainOk w s (j + 1)
      ↔ (s.phase ≠ .finished ∧ s.workoutCompleted = false)
          ∧ chainOk w (transitionStep w s) j := by
  constructor
  · intro h
    exact ⟨h 0 (by omega), fun i hi => h (i + 1) (by omega)⟩
  · rintro ⟨h0, h⟩ i hi
    cases i with
    | zero => exact h0
    | succ i => exact h i (by omega)

theorem not_crossed_bad (w : Workout) (s : TimerStatus) (e j : Nat) (hj : 1 ≤ j)
    (hbad : s.phase = .finished ∨ s.workoutCompleted = true) :
    ¬crossedBoundary w s e j := by
  rintro ⟨hok, -⟩
  have h0 : s.phase ≠ .finished ∧ s.workoutCompleted = false := hok 0 (by omega)
  rcases hbad with hb | hb
  · exact h0.1 hb
  · rw [h0.2] at hb; exact Bool.noConfusion hb

theorem not_crossed_zero_elapsed (w : Workout) (s : TimerStatus) (j : Nat) (hj : 1 ≤ j) :
    ¬crossedBoundary w s 0 j := by
  rintro ⟨-, htime | ⟨hpos, hle⟩⟩
  · omega
  · have hd := duration_le_entryTime w s (show j - 1 < j by omega)
    omega

theorem not_crossed_small (w : Workout) (s : TimerStatus) (e j : Nat) (hj : 1 ≤ j)
    (hlt : e < s.timeLeftInPhase) : ¬crossedBoundary w s e j := by
  have h2 : entryTime w s 1 = s.timeLeftInPhase := by simp [entryTime]
  have h1 : s.timeLeftInPhase ≤ entryTime w s j := by
    have := entryTime_mono w s (show 1 ≤ j from hj)
    omega
  rintro ⟨-, htime | ⟨-, hle⟩⟩ <;> omega

theorem crossed_one_zero (w : Workout) (s : TimerStatus) (e : Nat)
    (hok : s.phase ≠ .finished ∧ s.workoutCompleted = false)
    (htl : s.timeLeftInPhase = 0) (he : 0 < e) : crossedBoundary w s e 1 := by
  refine ⟨?_, Or.inl ?_⟩
  · intro i hi
    cases i with
    | zero => exact hok
    | succ i => omega
  · have h1 : entryTime w s 1 = s.timeLeftInPhase := by simp [entryTime]
    omega

theorem crossed_one_consume (w : Workout) (s : TimerStatus) (e : Nat)
    (hok : s.phase ≠ .finished ∧ s.workoutCompleted = false)
    (htl : 0 < s.timeLeftInPhase) (hle : s.timeLeftInPhase ≤ e) :
    crossedBoundary w s e 1 := by
  have h1 : entryTime w s 1 = s.timeLeftInPhase := by simp [entryTime]
  refine ⟨?_, Or.inr ⟨?_, ?_⟩⟩
  · intro i hi
    cases i with
    | zero => exact hok
    | succ i => omega
  · exact htl
  · omega

/-- Crossing boundary `j + 1` from `s` is crossing boundary `j` from the next
status, with the current phase's remaining time consumed. -/
theorem crossed_shift (w : Workout) (s : TimerStatus) (e j : Nat) (hj : 1 ≤ j)
    (hok : s.phase ≠ .finished ∧ s.workoutCompleted = false)
    (hle : s.timeLeftInPhase ≤ e) :
    crossedBoundary w s e (j + 1)
      ↔ crossedBoundary w (transitionStep w s) (e - s.timeLeftInPhase) j := by
  obtain ⟨j', rfl⟩ : ∃ j', j = j' + 1 := ⟨j - 1, by omega⟩
  unfold crossedBoundary
  rw [chainOk_succ_iff]
  have hT : entryTime w s (j' + 1 + 1)
      = s.timeLeftInPhase + entryTime w (transitionStep w s) (j' + 1) := rfl
  have hC : chainStatus w s (j' + 1 + 1 - 1)
      = chainStatus w (transitionStep w s) (j' + 1 - 1) := rfl
  rw [hT, hC]
  constructor
  · rintro ⟨⟨-, hokk⟩, htime⟩
    refine ⟨hokk, ?_⟩
    rcases htime with ht | ⟨hp, ht⟩
    · exact Or.inl (by omega)
    · exact Or.inr ⟨hp, by omega⟩
  · rintro ⟨hokk, htime⟩
    refine ⟨⟨hok, hokk⟩, ?_⟩
    rcases htime with ht | ⟨hp, ht⟩
    · exact Or.inl (by omega)
    · exact Or.inr ⟨hp, by omega⟩

/-! ### The events emitted by one catch-up call -/

/-- Full characterization of the emitted event list: boundary `j` is crossed
within the span exactly when at least `j` events are emitted, and the `j`-th
event records the `(j+1)`-st orbit status, the id `nid + j`, and the
timestamp of that boundary. -/
theorem advanceLoopF_events :
    ∀ (fuel : Nat) (w : Workout) (s : TimerStatus) (e : Nat) (cursor : Int) (nid : Nat),
      e + loopMeasure w s < fuel →
      ∃ fs evs, advanceLoopF fuel w s e cursor nid = some (fs, evs) ∧
        (∀ j, 1 ≤ j → (crossedBoundary w s e j ↔ j ≤ evs.length)) ∧
        (∀ (j : Nat) (hlt : j < evs.length),
          evs.get ⟨j, hlt⟩
            = mkEvent (nid + j) (chainStatus w s (j + 1))
                (cursor + (entryTime w s (j + 1) : Int) * 1000)) := by
  intro fuel
  induction fuel with
  | zero => intro w s e cursor nid h; omega
  | succ fuel ih =>
    intro w s e cursor nid h
    rw [advanceLoopF_succ]
    by_cases h1 : e = 0 ∨ s.workoutCompleted = true
    · rw [if_pos h1]
      refine ⟨s, [], rfl, ?_, ?_⟩
      · intro j hj
        simp only [List.length_nil]
        constructor
        · intro hcr
          exfalso
          rcases h1 with he0 | hcomp
          · subst he0; exact not_crossed_zero_elapsed w s j hj hcr
          · exact not_crossed_bad w s e j hj (Or.inr hcomp) hcr
        · omega
      · intro j hlt; simp at hlt
    · have he : 0 < e := Nat.pos_of_ne_zero (fun hh => h1 (Or.inl hh))
      have hcomp : s.workoutCompleted = false := by
        cases hcc : s.workoutCompleted with
        | false => rfl
        | true => exact absurd (Or.inr hcc) h1
      rw [if_neg h1]
      by_cases h2 : s.timeLeftInPhase = 0
      · rw [if_pos h2]
        cases htp : transitionPhase w s with
        | none =>
          have hfin := (transitionPhase_none_iff w s).1 htp
          refine ⟨s, [], rfl, ?_, ?_⟩
          · intro j hj
            simp only [List.length_nil]
            constructor
            · intro hcr
              exact absurd hcr (not_crossed_bad w s e j hj (Or.inl hfin))
            · omega
          · intro j hlt; simp at hlt
        | some s' =>
          have hm := loopMeasure_decreases w htp
          obtain ⟨fs, evs, hloop, hiff, hget⟩ := ih w s' e cursor (nid + 1) (by omega)
          have hstep : transitionStep w s = s' := by
            unfold transitionStep; rw [htp]; rfl
          have hok : s.phase ≠ .finished ∧ s.workoutCompleted = false :=
            ⟨transitionPhase_some_not_finished htp, hcomp⟩
          refine ⟨fs, mkEvent nid s' cursor :: evs, ?_, ?_, ?_⟩
          · show Option.map (fun r => (r.1, mkEvent nid s' cursor :: r.2))
                (advanceLoopF fuel w s' e cursor (nid + 1))
              = some (fs, mkEvent nid s' cursor :: evs)
            rw [hloop]
            rfl
          · intro j hj
            simp only [List.length_cons]
            cases j with
            | zero => omega
            | succ jj =>
              cases jj with
              | zero =>
                exact iff_of_true (crossed_one_zero w s e hok h2 he) (by omega)
              | succ jj =>
                have hsh := crossed_shift w s e (jj + 1) (by omega) hok (by omega)
                rw [hstep, h2, Nat.sub_zero] at hsh
                rw [hsh, hiff (jj + 1) (by omega)]
                omega
          · intro j hlt
            cases j with
            | zero =>
              have hc1 : chainStatus w s (0 + 1) = s' := by
                rw [Nat.zero_add, chainStatus_succ, hstep]; rfl
              have hT1 : entryTime w s (0 + 1) = 0 := by
                simp [entryTime, h2]
              rw [show (mkEvent nid s' cursor :: evs).get ⟨0, hlt⟩ = mkEvent nid s' cursor
                from rfl, hc1, hT1]
              norm_num
            | succ j =>
              have hlt' : j < evs.length := by
                simp only [List.length_cons] at hlt; omega
              have hstepget : (mkEvent nid s' cursor :: evs).get ⟨j + 1, hlt⟩
                  = evs.get ⟨j, hlt'⟩ := rfl
              rw [hstepget, hget j hlt']
              have hid : nid + 1 + j = nid + (j + 1) := by omega
              have hc : chainStatus w s (j + 1 + 1) = chainStatus w s' (j + 1) := by
                rw [chainStatus_succ, hstep]
              have hT : entryTime w s (j + 1 + 1) = entryTime w s' (j + 1) := by
                rw [entryTime_succ, hstep, h2, Nat.zero_add]
              rw [hid, hc, hT]
      · rw [if_neg h2]
        have htl : 0 < s.timeLeftInPhase := by omega
        by_cases h3 : e < s.timeLeftInPhase
        · rw [if_pos h3]
          refine ⟨{ s with timeLeftInPhase := s.timeLeftInPhase - e }, [], rfl, ?_, ?_⟩
          · intro j hj
            simp only [List.length_nil]
            constructor
            · intro hcr
              exact absurd hcr (not_crossed_small w s e j hj h3)
            · omega
          · intro j hlt; simp at hlt
        · rw [if_neg h3]
          have hle : s.timeLeftInPhase ≤ e := by omega
          cases htp : transitionPhase w { s with timeLeftInPhase := 0 } with
          | none =>
            have hfin : s.phase = .finished :=
              (transitionPhase_none_iff w { s with timeLeftInPhase := 0 }).1 htp
            refine ⟨{ s with timeLeftInPhase := 0 }, [], rfl, ?_, ?_⟩
            · intro j hj
              simp only [List.length_nil]
              constructor
              · intro hcr
                exact absurd hcr (not_crossed_bad w s e j hj (Or.inl hfin))
              · omega
            · intro j hlt; simp at hlt
          | some s' =>
            have htps : transitionPhase w s = some s' := by
              rw [← transitionPhase_timeLeft_irrel w s 0]; exact htp
            have hm := loopMeasure_decreases w htps
            obtain ⟨fs, evs, hloop, hiff, hget⟩ :=
              ih w s' (e - s.timeLeftInPhase)
                (cursor + (s.timeLeftInPhase : Int) * 1000) (nid + 1) (by omega)
            have hstep : transitionStep w s = s' := by
              unfold transitionStep; rw [htps]; rfl
            have hok : s.phase ≠ .finished ∧ s.workoutCompleted = false :=
              ⟨transitionPhase_some_not_finished htps, hcomp⟩
            refine ⟨fs,
              mkEvent nid s' (cursor + (s.timeLeftInPhase : Int) * 1000) :: evs,
              ?_, ?_, ?_⟩
            · show Option.map
                  (fun r => (r.1, mkEvent nid s' (cursor + (s.timeLeftInPhase : Int) * 1000) :: r.2))
                  (advanceLoopF fuel w s' (e - s.timeLeftInPhase)
                    (cursor + (s.timeLeftInPhase : Int) * 1000) (nid + 1))
                = some (fs, mkEvent nid s' (cursor + (s.timeLeftInPhase : Int) * 1000) :: evs)
              rw [hloop]
              rfl
            · intro j hj
              simp only [List.length_cons]
              cases j with
              | zero => omega
              | succ jj =>
                cases jj with
                | zero =>
                  exact iff_of_true (crossed_one_consume w s e hok htl hle) (by omega)
                | succ jj =>
                  have hsh := crossed_shift w s e (jj + 1) (by omega) hok hle
                  rw [hstep] at hsh
                  rw [hsh, hiff (jj + 1) (by omega)]
                  omega
            · intro j hlt
              cases j with
              | zero =>
                have hc1 : chainStatus w s (0 + 1) = s' := by
                  rw [Nat.zero_add, chainStatus_succ, hstep]; rfl
                have hT1 : entryTime w s (0 + 1) = s.timeLeftInPhase := by
                  simp [entryTime]
                rw [show (mkEvent nid s' (cursor + (s.timeLeftInPhase : Int) * 1000) :: evs).get
                    ⟨0, hlt⟩ = mkEvent nid s' (cursor + (s.timeLeftInPhase : Int) * 1000)
                  from rfl, hc1, hT1]
                norm_num
              | succ j =>
                have hlt' : j < evs.length := by
                  simp only [List.length_cons] at hlt; omega
                have hstepget :
                    (mkEvent nid s' (cursor + (s.timeLeftInPhase : Int) * 1000) :: evs).get
                      ⟨j + 1, hlt⟩ = evs.get ⟨j, hlt'⟩ := rfl
                rw [hstepget, hget j hlt']
                have hid : nid + 1 + j = nid + (j + 1) := by omega
                have hc : chainStatus w s (j + 1 + 1) = chainStatus w s' (j + 1) := by
                  rw [chainStatus_succ, hstep]
                have hT : (entryTime w s (j + 1 + 1) : Int)
                    = (s.timeLeftInPhase : Int) + (entryTime w s' (j + 1) : Int) := by
                  rw [entryTime_succ, hstep]
                  push_cast
                  ring
                have hcur : cursor + (s.timeLeftInPhase : Int) * 1000
                      + (entryTime w s' (j + 1) : Int) * 1000
                    = cursor + (entryTime w s (j + 1 + 1) : Int) * 1000 := by
                  rw [hT]; ring
                rw [hid, hc, hcur]

/-! ### Top-level form of a positive-elapsed catch-up call -/

theorem advanceTimer_pos (w : Workout) (s : TimerStatus) (e : Nat) (now : Int)
    (nid : Nat) (he : 0 < e) :
    advanceTimer w s e now nid
      = (advanceLoopF (fuelBound w s e) w s e (now - (e : Int) * 1000) nid).getD (s, []) := by
  simp only [advanceTimer, advanceTimerJS]
  rw [if_neg (by omega : ¬((e : Int) ≤ 0)), Int.toNat_natCast]

theorem advanceTimer_zero (w : Workout) (s : TimerStatus) (now : Int) (nid : Nat) :
    advanceTimer w s 0 now nid = (s, []) := rfl

/-- C2: each boundary crossed by the elapsed span yields exactly one event, in
entry order along the transition orbit (never skipping a phase), with ids
`nid, nid + 1, …` and the historical timestamps of the boundaries; ids are
strictly increasing and `occurredAt` is monotone. -/
theorem advanceTimer_events_spec (w : Workout) (s : TimerStatus) (e : Nat)
    (now : Int) (nid : Nat) :
    (∀ j, 1 ≤ j →
      (crossedBoundary w s e j ↔ j ≤ (advanceTimer w s e now nid).2.length)) ∧
    (∀ (j : Nat) (hlt : j < (advanceTimer w s e now nid).2.length),
      (advanceTimer w s e now nid).2.get ⟨j, hlt⟩
        = mkEvent (nid + j) (chainStatus w s (j + 1))
            (now - (e : Int) * 1000 + (entryTime w s (j + 1) : Int) * 1000)) ∧
    (∀ (i j : Nat) (hi : i < (advanceTimer w s e now nid).2.length)
        (hj : j < (advanceTimer w s e now nid).2.length), i < j →
      ((advanceTimer w s e now nid).2.get ⟨i, hi⟩).id
          < ((advanceTimer w s e now nid).2.get ⟨j, hj⟩).id ∧
        ((advanceTimer w s e now nid).2.get ⟨i, hi⟩).occurredAt
          ≤ ((advanceTimer w s e now nid).2.get ⟨j, hj⟩).occurredAt) := by
  by_cases he : e = 0
  · subst he
    rw [advanceTimer_zero]
    refine ⟨?_, ?_, ?_⟩
    · intro j hj
      simp only [List.length_nil]
      exact iff_of_false (not_crossed_zero_elapsed w s j hj) (by omega)
    · intro j hlt; simp at hlt
    · intro i j hi hj hij; simp at hi
  · have hf : e + loopMeasure w s < fuelBound w s e := by unfold fuelBound; omega
    obtain ⟨fs, evs, hloop, hiff, hget⟩ :=
      advanceLoopF_events (fuelBound w s e) w s e (now - (e : Int) * 1000) nid hf
    rw [advanceTimer_pos w s e now nid (by omega), hloop]
    simp only [Option.getD_some]
    refine ⟨hiff, hget, ?_⟩
    intro i j hi hj hij
    rw [hget i hi, hget j hj]
    constructor
    · simp only [mkEvent]
      omega
    · simp only [mkEvent]
      have hmono : entryTime w s (i + 1) ≤ entryTime w s (j + 1) :=
        entryTime_mono w s (by omega)
      have hmono' : (entryTime w s (i + 1) : Int) ≤ (entryTime w s (j + 1) : Int) := by
        exact_mod_cast hmono
      linarith

/-- C3: one catch-up call over a total elapsed time equals any chain of
catch-up calls over sub-durations summing to it, whatever timestamps and
transition ids are threaded into the intermediate calls. -/
theorem advanceTimer_split_calls (w : Workout) (s : TimerStatus) (ds : List Nat)
    (now : Int) (nid : Nat) (nowF : TimerStatus → Nat → Int)
    (nidF : TimerStatus → Nat → Nat) :
    (advanceTimer w s ds.sum now nid).1
      = ds.foldl (fun st d => (advanceTimer w st d (nowF st d) (nidF st d)).1) s := by
  have hfun : (fun (st : TimerStatus) (d : Nat) => (advanceTimer w st d (nowF st d) (nidF st d)).1)
      = fun st d => statusAdv w st d := by
    funext st d
    exact advanceTimer_fst w st d (nowF st d) (nidF st d)
  rw [advanceTimer_fst, hfun]
  induction ds generalizing s with
  | nil => simp [statusAdv_zero]
  | cons d ds ihd =>
    rw [List.sum_cons, List.foldl_cons, statusAdv_split]
    exact ihd (statusAdv w s d)

/-- C4: the transition function signals "no transition" exactly on the
terminal phase, and the catch-up loop always terminates within the concrete
fuel bound `e + loopMeasure w s + 1` — also for workouts with zero-length
phases and for arbitrary (even malformed) statuses. -/
theorem advanceTimer_terminates (w : Workout) (s : TimerStatus) (e : Nat)
    (now : Int) (nid : Nat) :
    (transitionPhase w s = none ↔ s.phase = .finished) ∧
    (advanceLoopF (fuelBound w s e) w s e (now - (e : Int) * 1000) nid).isSome = true :=
  ⟨transitionPhase_none_iff w s,
   advanceLoopF_isSome (fuelBound w s e) w s e (now - (e : Int) * 1000) nid
     (by unfold fuelBound; omega)⟩

/-! ### Concrete fixtures -/

/-- A round with 10s work and 5s rest (spec section 8 example). -/
def round10x5 : Round := { id := "", exerciseName := "", workTime := 10, restTime := 5 }

/-- The section 8 example workout: 2 sets of 2 rounds, 30s set rest. -/
def w2x2 : Workout :=
  { id := "", name := "", sets := 2, setRestTime := 30, rounds := [round10x5, round10x5] }

/-- A prepare status whose countdown has just expired. -/
def sPrep0 : TimerStatus :=
  { phase := .prepare, currentSet := 1, currentRoundIndex := 0,
    timeLeftInPhase := 0, totalPhaseTime := 5, workoutCompleted := false }

/-! ### C1: the transition table -/

/-- C1: `transitionPhase` implements the section 4.1 transition table, and
every produced status has `totalPhaseTime` equal to its new
`timeLeftInPhase`. -/
theorem transitionPhase_table (w : Workout) (s : TimerStatus)
    (hsets : 1 ≤ w.sets) (hrounds : w.rounds ≠ [])
    (htl : s.timeLeftInPhase = 0) (hidx : s.currentRoundIndex < w.rounds.length) :
    (s.phase = .prepare →
      transitionPhase w s = some { s with
        phase := .work, currentSet := 1, currentRoundIndex := 0,
        timeLeftInPhase := (roundAt w 0).workTime,
        totalPhaseTime := (roundAt w 0).workTime }) ∧
    (s.phase = .work → 0 < (roundAt w s.currentRoundIndex).restTime →
      transitionPhase w s = some { s with
        phase := .rest,
        timeLeftInPhase := (roundAt w s.currentRoundIndex).restTime,
        totalPhaseTime := (roundAt w s.currentRoundIndex).restTime }) ∧
    (s.phase = .work → (roundAt w s.currentRoundIndex).restTime = 0 →
      s.currentSet = w.sets → s.currentRoundIndex = w.rounds.length - 1 →
      transitionPhase w s = some { s with
        phase := .finished, workoutCompleted := true,
        timeLeftInPhase := 0, totalPhaseTime := 0 }) ∧
    (s.phase = .work → (roundAt w s.currentRoundIndex).restTime = 0 →
      ¬(s.currentSet = w.sets ∧ s.currentRoundIndex = w.rounds.length - 1) →
      transitionPhase w s = some { s with
        phase := .set_rest, timeLeftInPhase := w.setRestTime,
        totalPhaseTime := w.setRestTime }) ∧
    (s.phase = .rest → s.currentSet = w.sets → s.currentRoundIndex = w.rounds.length - 1 →
      transitionPhase w s = some { s with
        phase := .finished, workoutCompleted := true,
        timeLeftInPhase := 0, totalPhaseTime := 0 }) ∧
    (s.phase = .rest → ¬(s.currentSet = w.sets ∧ s.currentRoundIndex = w.rounds.length - 1) →
      transitionPhase w s = some { s with
        phase := .set_rest, timeLeftInPhase := w.setRestTime,
        totalPhaseTime := w.setRestTime }) ∧
    (s.phase = .set_rest → s.currentRoundIndex + 1 < w.rounds.length →
      s.currentSet ≤ w.sets →
      transitionPhase w s = some { s with
        phase := .work, currentRoundIndex := s.currentRoundIndex + 1,
        timeLeftInPhase := (roundAt w (s.currentRoundIndex + 1)).workTime,
        totalPhaseTime := (roundAt w (s.currentRoundIndex + 1)).workTime }) ∧
    (s.phase = .set_rest → w.rounds.length ≤ s.currentRoundIndex + 1 →
      s.currentSet + 1 ≤ w.sets →
      transitionPhase w s = some { s with
        phase := .work, currentSet := s.currentSet + 1, currentRoundIndex := 0,
        timeLeftInPhase := (roundAt w 0).workTime,
        totalPhaseTime := (roundAt w 0).workTime }) ∧
    (s.phase = .set_rest → w.rounds.length ≤ s.currentRoundIndex + 1 →
      w.sets < s.currentSet + 1 →
      transitionPhase w s = some { s with
        phase := .finished, workoutCompleted := true,
        timeLeftInPhase := 0, totalPhaseTime := 0 }) ∧
    (s.phase = .set_rest → s.currentRoundIndex + 1 < w.rounds.length →
      w.sets < s.currentSet →
      transitionPhase w s = some { s with
        phase := .finished, workoutCompleted := true,
        timeLeftInPhase := 0, totalPhaseTime := 0 }) ∧
    (∀ s', transitionPhase w s = some s' → s'.totalPhaseTime = s'.timeLeftInPhase) := by
  obtain ⟨ph, cs, ci, tl, tt, wc⟩ := s
  dsimp only at htl hidx
  refine ⟨?_, ?_, ?_, ?_, ?_, ?_, ?_, ?_, ?_, ?_, ?_⟩
  · intro hph
    dsimp only at hph
    subst hph
    rfl
  · intro hph hrt
    dsimp only at hph hrt
    subst hph
    simp only [transitionPhase]
    rw [if_neg (by omega)]
  · intro hph hrt hcs hci
    dsimp only at hph hrt hcs hci
    subst hph
    simp only [transitionPhase]
    rw [if_pos (by omega), if_pos (by simp [hcs, hci])]
  · intro hph hrt hnf
    dsimp only at hph hrt hnf
    subst hph
    simp only [transitionPhase]
    rw [if_pos (by omega), if_neg ?_]
    simp only [Bool.and_eq_true, beq_iff_eq]
    exact hnf
  · intro hph hcs hci
    dsimp only at hph hcs hci
    subst hph
    simp only [transitionPhase]
    rw [if_pos (by simp [hcs, hci])]
  · intro hph hnf
    dsimp only at hph hnf
    subst hph
    simp only [transitionPhase]
    rw [if_neg ?_]
    simp only [Bool.and_eq_true, beq_iff_eq]
    exact hnf
  · intro hph hilt hsle
    dsimp only at hph hilt hsle
    subst hph
    have hcond : ¬(ci + 1 ≥ w.rounds.length) := by omega
    simp only [transitionPhase, if_neg hcond]
    rw [if_neg (by omega)]
  · intro hph hige hset
    dsimp only at hph hige hset
    subst hph
    have hcond : ci + 1 ≥ w.rounds.length := hige
    simp only [transitionPhase, if_pos hcond]
    rw [if_neg (by omega)]
  · intro hph hige hset
    dsimp only at hph hige hset
    subst hph
    have hcond : ci + 1 ≥ w.rounds.length := hige
    simp only [transitionPhase, if_pos hcond]
    rw [if_pos (by omega)]
  · intro hph hilt hset
    dsimp only at hph hilt hset
    subst hph
    have hcond : ¬(ci + 1 ≥ w.rounds.length) := by omega
    simp only [transitionPhase, if_neg hcond]
    rw [if_pos (by omega)]
  · intro s' hs'
    cases ph
    case prepare =>
      simp only [transitionPhase, Option.some.injEq] at hs'
      subst hs'
      rfl
    case work =>
      simp only [transitionPhase] at hs'
      split at hs'
      · split at hs' <;> (simp only [Option.some.injEq] at hs'; subst hs'; rfl)
      · simp only [Option.some.injEq] at hs'
        subst hs'
        rfl
    case rest =>
      simp only [transitionPhase] at hs'
      split at hs' <;> (simp only [Option.some.injEq] at hs'; subst hs'; rfl)
    case set_rest =>
      simp only [transitionPhase] at hs'
      split at hs' <;> split at hs' <;>
        (simp only [Option.some.injEq] at hs'; subst hs'; rfl)
    case finished => exact Option.noConfusion hs'

/-- C1 counterexample: the frozen claim's "work at the next round index in
the same set when that index is below rounds.length" row fails for a status
whose `currentSet` already exceeds `sets` (spec's TimerStatus only demands
`currentSet ≥ 1`): the code's `nextSet > sets` check fires first and yields
`finished`, not `work`. -/
def sBadSet : TimerStatus :=
  { phase := .set_rest, currentSet := 3, currentRoundIndex := 0,
    timeLeftInPhase := 0, totalPhaseTime := 30, workoutCompleted := false }

theorem transitionPhase_table_counterexample :
    (1 ≤ w2x2.sets ∧ w2x2.rounds ≠ [] ∧ sBadSet.timeLeftInPhase = 0 ∧
      sBadSet.currentRoundIndex < w2x2.rounds.length ∧
      sBadSet.phase = .set_rest ∧ sBadSet.currentRoundIndex + 1 < w2x2.rounds.length) ∧
    transitionPhase w2x2 sBadSet
      = some { sBadSet with
          phase := .finished, workoutCompleted := true,
          timeLeftInPhase := 0, totalPhaseTime := 0 } ∧
    (transitionPhase w2x2 sBadSet).map (fun s' => s'.phase) ≠ some TimerPhase.work := by
  refine ⟨by decide, rfl, by decide⟩

theorem transitionPhase_table_witness :
    transitionPhase w2x2 sPrep0
      = some { sPrep0 with
          phase := .work, currentSet := 1, currentRoundIndex := 0,
          timeLeftInPhase := (roundAt w2x2 0).workTime,
          totalPhaseTime := (roundAt w2x2 0).workTime } :=
  (transitionPhase_table w2x2 sPrep0 (by decide) (by decide) (by decide) (by decide)).1 rfl

theorem advanceTimer_events_spec_witness :
    crossedBoundary w2x2 initialStatus 20 1
      ↔ 1 ≤ (advanceTimer w2x2 initialStatus 20 0 1).2.length :=
  (advanceTimer_events_spec w2x2 initialStatus 20 0 1).1 1 (by decide)

/-! ### C5: the section 8 two-set example run -/

/-- C5 counterexample: running the section 8 example workout to completion
emits 12 transition events, not 9 — `set_rest` is entered after every rest,
not only between sets. -/
theorem fullRun_2x2_counterexample :
    (advanceTimer w2x2 initialStatus 155 0 1).2.length = 12 ∧
    (advanceTimer w2x2 initialStatus 155 0 1).2.length ≠ 9 := by
  refine ⟨rfl, by decide⟩

/-- C5 amended: the full phase sequence of the section 8 example is
prepare → work(r0,s1) → rest → set_rest → work(r1,s1) → rest → set_rest →
work(r0,s2) → rest → set_rest → work(r1,s2) → rest → finished, 12 events. -/
theorem fullRun_2x2_sequence :
    (advanceTimer w2x2 initialStatus 155 0 1).2.map
        (fun ev => (ev.phase, ev.set, ev.roundIndex))
      = [(.work, 1, 0), (.rest, 1, 0), (.set_rest, 1, 0),
         (.work, 1, 1), (.rest, 1, 1), (.set_rest, 1, 1),
         (.work, 2, 0), (.rest, 2, 0), (.set_rest, 2, 0),
         (.work, 2, 1), (.rest, 2, 1), (.finished, 2, 1)] ∧
    (advanceTimer w2x2 initialStatus 155 0 1).2.map (fun ev => ev.id)
      = [1, 2, 3, 4, 5, 6, 7, 8, 9, 10, 11, 12] ∧
    (advanceTimer w2x2 initialStatus 155 0 1).1
      = { phase := .finished, currentSet := 2, currentRoundIndex := 1,
          timeLeftInPhase := 0, totalPhaseTime := 0, workoutCompleted := true } := by
  refine ⟨rfl, rfl, rfl⟩

/-! ### C10: the legacy per-second timer is not the catch-up advancer -/

/-- A mid-run rest status one second from its boundary. -/
def sRest1 : TimerStatus :=
  { phase := .rest, currentSet := 1, currentRoundIndex := 0,
    timeLeftInPhase := 1, totalPhaseTime := 5, workoutCompleted := false }

/-- C10 counterexample: at a rest boundary the legacy timer jumps straight to
the next round's work phase while the catch-up advancer enters `set_rest`. -/
theorem legacyTick_counterexample :
    (legacyTick w2x2 sRest1).phase = .work ∧
    ((advanceTimer w2x2 sRest1 1 0 1).1).phase = .set_rest ∧
    legacyTick w2x2 sRest1 ≠ (advanceTimer w2x2 sRest1 1 0 1).1 := by
  refine ⟨rfl, rfl, by decide⟩

/-- C10 amended: the two ticking strategies agree on every non-boundary tick
(more than one second left in the phase): both decrement the countdown by
exactly one second and emit no event. -/
theorem legacyTick_midphase_agree (w : Workout) (s : TimerStatus) (now : Int)
    (nid : Nat) (hc : s.workoutCompleted = false) (htl : 1 < s.timeLeftInPhase) :
    legacyTick w s = { s with timeLeftInPhase := s.timeLeftInPhase - 1 } ∧
    advanceTimer w s 1 now nid
      = ({ s with timeLeftInPhase := s.timeLeftInPhase - 1 }, []) := by
  constructor
  · unfold legacyTick
    rw [if_pos htl]
  · rw [advanceTimer_pos w s 1 now nid (by omega)]
    have hb : fuelBound w s 1 = 1 + loopMeasure w s + 1 := rfl
    rw [hb, advanceLoopF_succ, if_neg (by simp [hc]), if_neg (by omega),
      if_pos (by omega : (1 : Nat) < s.timeLeftInPhase)]
    rfl

/-- A mid-work status for the C10 witness. -/
def sWork10 : TimerStatus :=
  { phase := .work, currentSet := 1, currentRoundIndex := 0,
    timeLeftInPhase := 10, totalPhaseTime := 10, workoutCompleted := false }

theorem legacyTick_midphase_agree_witness :
    legacyTick w2x2 sWork10 = { sWork10 with timeLeftInPhase := 9 } ∧
    advanceTimer w2x2 sWork10 1 0 1 = ({ sWork10 with timeLeftInPhase := 9 }, []) :=
  legacyTick_midphase_agree w2x2 sWork10 0 1 (by decide) (by decide)

/-! ### C6: the status invariant is preserved -/

/-- The spec's TimerStatus invariant: `currentSet ≥ 1`, round index in range,
nonnegative countdowns, and `workoutCompleted ⇔ phase = finished`. -/
def TimerInvariant (w : Workout) (s : TimerStatus) : Prop :=
  1 ≤ s.currentSet ∧ s.currentRoundIndex < w.rounds.length ∧
    0 ≤ s.timeLeftInPhase ∧ 0 ≤ s.totalPhaseTime ∧
    (s.workoutCompleted = true ↔ s.phase = .finished)

/-- Statuses reachable from the initial status through the timer operations. -/
inductive Reach (w : Workout) : TimerStatus → Prop where
  | init : Reach w initialStatus
  | trans {s s' : TimerStatus} : Reach w s → transitionPhase w s = some s' → Reach w s'
  | advance {s : TimerStatus} (e : Nat) (now : Int) (nid : Nat) :
      Reach w s → Reach w (advanceTimer w s e now nid).1

theorem TimerInvariant_step {w : Workout} (hsets : 1 ≤ w.sets) (hrounds : w.rounds ≠ [])
    {s s' : TimerStatus} (hinv : TimerInvariant w s)
    (h : transitionPhase w s = some s') : TimerInvariant w s' := by
  have hlen : 0 < w.rounds.length := List.length_pos.2 hrounds
  obtain ⟨h1, h2, h3, h4, h5⟩ := hinv
  obtain ⟨ph, cs, ci, tl, tt, wc⟩ := s
  dsimp only at h1 h2 h3 h4 h5
  cases ph
  case prepare =>
    have hwc : wc = false := by
      cases hcc : wc
      · rfl
      · exact absurd (h5.1 hcc) (by simp)
    simp only [transitionPhase, Option.some.injEq] at h
    subst h
    exact ⟨le_rfl, hlen, Nat.zero_le _, Nat.zero_le _, by simp [hwc]⟩
  case work =>
    have hwc : wc = false := by
      cases hcc : wc
      · rfl
      · exact absurd (h5.1 hcc) (by simp)
    simp only [transitionPhase] at h
    split at h
    · split at h
      · simp only [Option.some.injEq] at h
        subst h
        exact ⟨h1, h2, Nat.zero_le _, Nat.zero_le _, by simp⟩
      · simp only [Option.some.injEq] at h
        subst h
        exact ⟨h1, h2, Nat.zero_le _, Nat.zero_le _, by simp [hwc]⟩
    · simp only [Option.some.injEq] at h
      subst h
      exact ⟨h1, h2, Nat.zero_le _, Nat.zero_le _, by simp [hwc]⟩
  case rest =>
    have hwc : wc = false := by
      cases hcc : wc
      · rfl
      · exact absurd (h5.1 hcc) (by simp)
    simp only [transitionPhase] at h
    split at h
    · simp only [Option.some.injEq] at h
      subst h
      exact ⟨h1, h2, Nat.zero_le _, Nat.zero_le _, by simp⟩
    · simp only [Option.some.injEq] at h
      subst h
      exact ⟨h1, h2, Nat.zero_le _, Nat.zero_le _, by simp [hwc]⟩
  case set_rest =>
    have hwc : wc = false := by
      cases hcc : wc
      · rfl
      · exact absurd (h5.1 hcc) (by simp)
    by_cases hwrap : ci + 1 ≥ w.rounds.length
    · simp only [transitionPhase, if_pos hwrap] at h
      split at h
      · simp only [Option.some.injEq] at h
        subst h
        exact ⟨h1, h2, Nat.zero_le _, Nat.zero_le _, by simp⟩
      · simp only [Option.some.injEq] at h
        subst h
        exact ⟨by show 1 ≤ cs + 1; omega, hlen, Nat.zero_le _, Nat.zero_le _, by simp [hwc]⟩
    · simp only [transitionPhase, if_neg hwrap] at h
      split at h
      · simp only [Option.some.injEq] at h
        subst h
        exact ⟨h1, h2, Nat.zero_le _, Nat.zero_le _, by simp⟩
      · simp only [Option.some.injEq] at h
        subst h
        exact ⟨h1, by show ci + 1 < w.rounds.length; omega, Nat.zero_le _, Nat.zero_le _,
          by simp [hwc]⟩
  case finished => exact Option.noConfusion h

theorem TimerInvariant_loop :
    ∀ (fuel : Nat) {w : Workout}, 1 ≤ w.sets → w.rounds ≠ [] →
      ∀ {s : TimerStatus} {e : Nat} {c : Int} {n : Nat} {fs : TimerStatus}
        {evs : List TimerTransitionEvent},
        advanceLoopF fuel w s e c n = some (fs, evs) → TimerInvariant w s →
        TimerInvariant w fs := by
  intro fuel
  induction fuel with
  | zero =>
    intro w hsets hrounds s e c n fs evs h hinv
    simp [advanceLoopF] at h
  | succ fuel ih =>
    intro w hsets hrounds s e c n fs evs h hinv
    by_cases h1 : e = 0 ∨ s.workoutCompleted = true
    · rw [advanceLoopF_succ, if_pos h1] at h
      simp only [Option.some.injEq, Prod.mk.injEq] at h
      rw [← h.1]
      exact hinv
    · rw [advanceLoopF_succ, if_neg h1] at h
      by_cases h2 : s.timeLeftInPhase = 0
      · rw [if_pos h2] at h
        cases htp : transitionPhase w s with
        | none =>
          rw [htp] at h
          simp only [Option.some.injEq, Prod.mk.injEq] at h
          rw [← h.1]
          exact hinv
        | some s' =>
          rw [htp] at h
          obtain ⟨r', hr', hfr⟩ := Option.map_eq_some'.1 h
          simp only [Prod.mk.injEq] at hfr
          rw [← hfr.1]
          have hinv' := TimerInvariant_step hsets hrounds hinv htp
          obtain ⟨fs', evs'⟩ := r'
          exact ih hsets hrounds hr' hinv'
      · rw [if_neg h2] at h
        by_cases h3 : e < s.timeLeftInPhase
        · rw [if_pos h3] at h
          simp only [Option.some.injEq, Prod.mk.injEq] at h
          rw [← h.1]
          obtain ⟨h1', h2', h3', h4', h5'⟩ := hinv
          exact ⟨h1', h2', Nat.zero_le _, Nat.zero_le _, h5'⟩
        · rw [if_neg h3] at h
          cases htp : transitionPhase w { s with timeLeftInPhase := 0 } with
          | none =>
            rw [htp] at h
            simp only [Option.some.injEq, Prod.mk.injEq] at h
            rw [← h.1]
            obtain ⟨h1', h2', h3', h4', h5'⟩ := hinv
            exact ⟨h1', h2', Nat.zero_le _, Nat.zero_le _, h5'⟩
          | some s' =>
            rw [htp] at h
            obtain ⟨r', hr', hfr⟩ := Option.map_eq_some'.1 h
            simp only [Prod.mk.injEq] at hfr
            rw [← hfr.1]
            have htps : transitionPhase w s = some s' := by
              rw [← transitionPhase_timeLeft_irrel w s 0]
              exact htp
            have hinv' := TimerInvariant_step hsets hrounds hinv htps
            obtain ⟨fs', evs'⟩ := r'
            exact ih hsets hrounds hr' hinv'

/-- C6: every status reachable from the initial status through the timer
operations satisfies the TimerStatus invariant. -/
theorem reachable_invariant (w : Workout) (s : TimerStatus)
    (hsets : 1 ≤ w.sets) (hrounds : w.rounds ≠ []) (hreach : Reach w s) :
    TimerInvariant w s := by
  induction hreach with
  | init =>
    exact ⟨le_rfl, List.length_pos.2 hrounds, Nat.zero_le _, Nat.zero_le _, by
      simp [initialStatus]⟩
  | trans hr htp ih => exact TimerInvariant_step hsets hrounds ih htp
  | advance e now nid hr ih =>
    rename_i s'
    by_cases he : e = 0
    · subst he
      rw [advanceTimer_zero]
      exact ih
    · rw [advanceTimer_pos w s' e now nid (by omega)]
      obtain ⟨r, hr'⟩ := Option.isSome_iff_exists.1
        (advanceLoopF_isSome (fuelBound w s' e) w s' e (now - (e : Int) * 1000) nid
          (by unfold fuelBound; omega))
      rw [hr']
      obtain ⟨fs, evs⟩ := r
      exact TimerInvariant_loop (fuelBound w s' e) hsets hrounds hr' ih

theorem reachable_invariant_witness : TimerInvariant w2x2 initialStatus :=
  reachable_invariant w2x2 initialStatus (by decide) (by decide) Reach.init

/-! ### C7: anomalous elapsed times are inert -/

/-- C7: a negative, zero, or NaN `elapsedSeconds` leaves the status unchanged
and emits no events. -/
theorem advanceTimer_anomalous_elapsed (w : Workout) (s : TimerStatus) (now : Int)
    (nid : Nat) (e : JsNumber)
    (h : e = JsNumber.nan ∨ ∃ n : Int, n ≤ 0 ∧ e = JsNumber.num n) :
    advanceTimerJS w s e now nid = (s, []) := by
  rcases h with rfl | ⟨n, hn, rfl⟩
  · rfl
  · simp only [advanceTimerJS]
    rw [if_pos hn]

theorem advanceTimer_anomalous_elapsed_witness :
    advanceTimerJS w2x2 initialStatus JsNumber.nan 0 1 = (initialStatus, []) ∧
    advanceTimerJS w2x2 initialStatus (JsNumber.num (-7)) 0 1 = (initialStatus, []) ∧
    advanceTimerJS w2x2 initialStatus (JsNumber.num 0) 0 1 = (initialStatus, []) :=
  ⟨advanceTimer_anomalous_elapsed w2x2 initialStatus 0 1 JsNumber.nan (Or.inl rfl),
   advanceTimer_anomalous_elapsed w2x2 initialStatus 0 1 (JsNumber.num (-7))
     (Or.inr ⟨-7, by norm_num, rfl⟩),
   advanceTimer_anomalous_elapsed w2x2 initialStatus 0 1 (JsNumber.num 0)
     (Or.inr ⟨0, le_rfl, rfl⟩)⟩

end Tabata

namespace SonicMode

/-! ### C8: the protection-cycle transition table -/

/-- Settings with three configured listen cycles. -/
def cfg3 : AppSettings :=
  { soundOn := true, notificationsOn := false, darkMode := false,
    sonicModeOn := true, sonicModeCycles := 3 }

/-- C8 counterexample: on `listen` expiry below the configured cycle count the
reducer moves to `earRest` without touching `cycleCount` (the increment
happens on `earRest` expiry instead, contrary to the claim). -/
theorem sonicTransition_counterexample :
    sonicModeReducer
        { isActive := true, phase := .listen, timeLeft := 0, cycleCount := 1 }
        (.TRANSITION cfg3)
      = { isActive := true, phase := .earRest, timeLeft := 900, cycleCount := 1 } ∧
    (sonicModeReducer
        { isActive := true, phase := .listen, timeLeft := 0, cycleCount := 1 }
        (.TRANSITION cfg3)).cycleCount ≠ 1 + 1 := by
  refine ⟨rfl, by decide⟩

/-- C8 amended: for an active state, `listen` expiry goes to `extendedBreak`
(3600s) when `cycleCount ≥ configuredCycles` and otherwise to `earRest`
(900s), in both cases leaving `cycleCount` unchanged; `earRest` expiry
returns to `listen` (3600s) and increments `cycleCount`; `extendedBreak`
expiry returns to `listen` with `cycleCount` reset to 1. -/
theorem sonicTransition_table (st : SonicModeState) (settings : AppSettings)
    (ha : st.isActive = true) :
    (st.phase = .listen → settings.sonicModeCycles ≤ st.cycleCount →
      sonicModeReducer st (.TRANSITION settings)
        = { st with phase := .extendedBreak, timeLeft := 3600 }) ∧
    (st.phase = .listen → st.cycleCount < settings.sonicModeCycles →
      sonicModeReducer st (.TRANSITION settings)
        = { st with phase := .earRest, timeLeft := 900 }) ∧
    (st.phase = .earRest →
      sonicModeReducer st (.TRANSITION settings)
        = { st with phase := .listen, timeLeft := 3600, cycleCount := st.cycleCount + 1 }) ∧
    (st.phase = .extendedBreak →
      sonicModeReducer st (.TRANSITION settings)
        = { st with phase := .listen, timeLeft := 3600, cycleCount := 1 }) := by
  obtain ⟨ia, ph, tl, cc⟩ := st
  dsimp only at ha
  subst ha
  refine ⟨?_, ?_, ?_, ?_⟩
  · intro hph hcyc
    dsimp only at hph hcyc
    subst hph
    simp [sonicModeReducer, EXTENDED_BREAK_DURATION, hcyc]
  · intro hph hcyc
    dsimp only at hph hcyc
    subst hph
    have hn : ¬(cc ≥ settings.sonicModeCycles) := by omega
    simp [sonicModeReducer, EAR_REST_DURATION, hn]
  · intro hph
    dsimp only at hph
    subst hph
    simp [sonicModeReducer, LISTEN_DURATION]
  · intro hph
    dsimp only at hph
    subst hph
    simp [sonicModeReducer, LISTEN_DURATION]

theorem sonicTransition_table_witness :
    sonicModeReducer
        { isActive := true, phase := .earRest, timeLeft := 0, cycleCount := 1 }
        (.TRANSITION cfg3)
      = { isActive := true, phase := .listen, timeLeft := 3600, cycleCount := 2 } :=
  (sonicTransition_table
    { isActive := true, phase := .earRest, timeLeft := 0, cycleCount := 1 }
    cfg3 rfl).2.2.1 rfl

/-! ### C9: a 3700-second gap over the unit-tick engine -/

theorem sonicGapStep_tick (settings : AppSettings) (st : SonicModeState) (k : Nat)
    (ha : st.isActive = true) (h2 : 2 ≤ st.timeLeft) :
    sonicGapStep settings (st, k) = ({ st with timeLeft := st.timeLeft - 1 }, k) := by
  have htick : sonicModeReducer st .TICK = { st with timeLeft := st.timeLeft - 1 } := by
    unfold sonicModeReducer
    rw [if_neg (by simp [ha]; omega)]
  show (if (sonicModeReducer st .TICK).isActive
        && (sonicModeReducer st .TICK).timeLeft == 0 then
      (sonicModeReducer (sonicModeReducer st .TICK) (.TRANSITION settings), k + 1)
    else (sonicModeReducer st .TICK, k)) = ({ st with timeLeft := st.timeLeft - 1 }, k)
  rw [htick, if_neg (by simp [ha]; omega)]

theorem sonicGapStep_run (settings : AppSettings) :
    ∀ (m : Nat) (st : SonicModeState) (k : Nat), st.isActive = true →
      m < st.timeLeft →
      (sonicGapStep settings)^[m] (st, k) = ({ st with timeLeft := st.timeLeft - m }, k) := by
  intro m
  induction m with
  | zero =>
    intro st k ha hm
    simp only [Function.iterate_zero_apply, Nat.sub_zero]
  | succ m ih =>
    intro m1st k ha hm
    rw [Function.iterate_succ_apply, sonicGapStep_tick settings m1st k ha (by omega)]
    rw [ih { m1st with timeLeft := m1st.timeLeft - 1 } k ha
      (by show m < m1st.timeLeft - 1; omega)]
    show ({ m1st with timeLeft := m1st.timeLeft - 1 - m }, k) = _
    have harg : m1st.timeLeft - 1 - m = m1st.timeLeft - (m + 1) := by omega
    rw [harg]

/-- C9: a 3700-second gap over a full 3600-second `listen` phase crosses
exactly one boundary — the new phase (`extendedBreak` or `earRest` depending
on the cycle count) starts short by the 100-second overflow, and the
transition counter records exactly one transition. -/
theorem sonicGap_3700 (c : Nat) (settings : AppSettings) :
    (sonicGapStep settings)^[3700]
        ({ isActive := true, phase := .listen, timeLeft := 3600, cycleCount := c }, 0)
      = (if settings.sonicModeCycles ≤ c
          then { isActive := true, phase := .extendedBreak, timeLeft := 3500, cycleCount := c }
          else { isActive := true, phase := .earRest, timeLeft := 800, cycleCount := c }, 1) := by
  have hone : sonicGapStep settings
      (({ isActive := true, phase := .listen, timeLeft := 1, cycleCount := c } :
        SonicModeState), 0)
      = (if settings.sonicModeCycles ≤ c
          then { isActive := true, phase := .extendedBreak, timeLeft := 3600, cycleCount := c }
          else { isActive := true, phase := .earRest, timeLeft := 900, cycleCount := c }, 1) := by
    by_cases hcyc : settings.sonicModeCycles ≤ c
    · simp [sonicGapStep, sonicModeReducer, hcyc, EXTENDED_BREAK_DURATION]
    · have hn : ¬(c ≥ settings.sonicModeCycles) := hcyc
      simp [sonicGapStep, sonicModeReducer, hn, EAR_REST_DURATION]
  have hsplit : (3700 : Nat) = 100 + (1 + 3599) := by norm_num
  rw [hsplit, Function.iterate_add_apply, Function.iterate_add_apply,
    sonicGapStep_run settings 3599 _ 0 rfl (by norm_num)]
  rw [show (3600 : Nat) - 3599 = 1 from rfl, Function.iterate_one, hone]
  by_cases hcyc : settings.sonicModeCycles ≤ c
  · rw [if_pos hcyc, if_pos hcyc,
      sonicGapStep_run settings 100 _ 1 rfl (by norm_num)]
    rfl
  · rw [if_neg hcyc, if_neg hcyc,
      sonicGapStep_run settings 100 _ 1 rfl (by norm_num)]
    rfl

end SonicMode
